import Mathlib

/-!
Verification of the boids + sliding-puzzle core.

The puzzle state machine (`PuzzleState` in src/boids/BoidSim.ts) is embedded
over `ℕ`/`ℤ` with JS array semantics made explicit: a cell holds a tile id,
the `null` empty marker, or JS `undefined` (the value produced by reading a
missing array index).  Operations that can throw in JS (`findEmptySlot`,
out-of-range row access) return `Option`, with `none` modelling the thrown
exception.  `Math.random()`-driven choices are abstracted by an oracle
`ℕ → ℕ`; the chosen index into a candidate list of length `len` is
`oracle value % len`, which ranges over exactly the indices
`Math.floor(Math.random() * len)` can produce.

The vector and boid code (src/utils/vector.ts, src/boids/Boid.ts and the
`Game` flow fields) is embedded over `ℝ`; the mutate-and-return-this methods
become pure functions returning the updated value, and the ambient
`window.innerWidth` / `window.innerHeight` globals become explicit `W H : ℝ`
parameters.
-/

/-- JS cell value of the puzzle grid: a numeric tile id, `null` (the empty
slot marker), or `undefined` (result of reading a missing array index). -/
inductive Cell where
  | tile : ℕ → Cell
  | empty : Cell
  | undef : Cell
  deriving DecidableEq, Repr

/-- The puzzle grid, `TileId[][]` in the source. -/
abbrev Grid := List (List Cell)

namespace PuzzleState

/-- PuzzleState.rows (3). -/
def rows : ℕ := 3

/-- PuzzleState.cols (3). -/
def cols : ℕ := 3

/-- The solved configuration the constructor installs. -/
def initialGrid : Grid :=
  [[.tile 0, .tile 1, .tile 2], [.tile 3, .tile 4, .tile 5], [.tile 6, .tile 7, .empty]]

/-- JS read `grid[r][c]`.  A column index beyond the row yields `undefined`;
a row index beyond the grid would make `grid[r]` `undefined` and the inner
index a TypeError, modelled as `none`. -/
def readCell (g : Grid) (r c : ℕ) : Option Cell :=
  (g.get? r).map (fun row => row.getD c .undef)

/-- JS write `row[c] = v`: in range it updates in place; past the end it
extends the array, filling the gap with `undefined` holes. -/
def writeRow (row : List Cell) (c : ℕ) (v : Cell) : List Cell :=
  if c < row.length then row.set c v
  else row ++ List.replicate (c - row.length) .undef ++ [v]

/-- JS write `grid[r][c] = v`; `none` models the TypeError on a missing row. -/
def writeCell (g : Grid) (r c : ℕ) (v : Cell) : Option Grid :=
  (g.get? r).map (fun row => g.set r (writeRow row c v))

/-- The row-major scan order of the nested `for` loops over the 3x3 grid. -/
def scanPositions : List (ℕ × ℕ) :=
  [(0, 0), (0, 1), (0, 2), (1, 0), (1, 1), (1, 2), (2, 0), (2, 1), (2, 2)]

/-- PuzzleState.findTilePosition: first grid cell equal to the target, in
row-major order, else `null` (here `none`). -/
def findTilePosition (g : Grid) (t : Cell) : Option (ℕ × ℕ) :=
  scanPositions.find? (fun p => readCell g p.1 p.2 = some t)

/-- PuzzleState.findEmptySlot; `none` models the thrown
`Empty slot not found` error. -/
def findEmptySlot (g : Grid) : Option (ℕ × ℕ) :=
  findTilePosition g .empty

/-- PuzzleState.canMove: Manhattan distance to the empty slot is exactly 1.
No bounds check is performed on the requested cell. -/
def canMove (g : Grid) (r c : ℕ) : Option Bool :=
  (findEmptySlot g).map
    (fun p => decide (((r : ℤ) - p.1).natAbs + ((c : ℤ) - p.2).natAbs = 1))

/-- PuzzleState.moveTile: find the empty slot, do nothing unless `canMove`,
otherwise copy the addressed cell into the empty slot and null the source. -/
def moveTile (g : Grid) (r c : ℕ) : Option Grid :=
  match findEmptySlot g with
  | none => none
  | some (er, ec) =>
    if ((r : ℤ) - er).natAbs + ((c : ℤ) - ec).natAbs = 1 then
      match readCell g r c with
      | none => none
      | some tid =>
        match writeCell g er ec tid with
        | none => none
        | some g1 => writeCell g1 r c .empty
    else some g

/-- Expected content of cell `(r, c)` in the solved state: the running
counter of `isSolved` equals the row-major index. -/
def expectedCell (r c : ℕ) : Cell :=
  if r = 2 ∧ c = 2 then .empty else .tile (r * cols + c)

/-- PuzzleState.isSolved. -/
def isSolved (g : Grid) : Bool :=
  scanPositions.all (fun p => readCell g p.1 p.2 == some (expectedCell p.1 p.2))

/-- Pairwise `>` on JS cell values as `countInversions` compares them:
only two numbers compare greater; any comparison involving `undefined`
is false (and `null` is filtered out before comparing). -/
def cellGT : Cell → Cell → Bool
  | .tile a, .tile b => decide (b < a)
  | _, _ => false

/-- Inversion count of a flat cell list: pairs `i < j` with
`l[i] > l[j]`. -/
def invAux : List Cell → ℕ
  | [] => 0
  | a :: l => l.countP (fun b => cellGT a b) + invAux l

/-- PuzzleState.countInversions: inversions of the flattened grid with the
empty marker filtered out. -/
def countInversions (g : Grid) : ℕ :=
  invAux (g.flatten.filter (fun c => !(c == Cell.empty)))

/-- PuzzleState.isSolvable: even inversion count. -/
def isSolvable (g : Grid) : Bool :=
  countInversions g % 2 == 0

/-- Candidate moves next to the empty slot, exactly as `shuffle` builds
them: the four orthogonal neighbours filtered to in-grid, non-null cells
(the bounds conjuncts short-circuit before the cell is read, as in JS). -/
def neighborCandidates (g : Grid) (er ec : ℕ) : List (ℕ × ℕ) :=
  (([((er : ℤ) - 1, (ec : ℤ)), ((er : ℤ) + 1, (ec : ℤ)),
     ((er : ℤ), (ec : ℤ) - 1), ((er : ℤ), (ec : ℤ) + 1)]).filter
    (fun p => decide (0 ≤ p.1) && decide (p.1 < 3) && decide (0 ≤ p.2) &&
      decide (p.2 < 3) && !(readCell g p.1.toNat p.2.toNat == some Cell.empty))).map
    (fun p => (p.1.toNat, p.2.toNat))

/-- One body of the `shuffle` loop (also the solvability-fixup block, which
repeats it verbatim): find the empty slot, collect candidates, and if any
exist move the one selected by the random index `k % length`. -/
def randStep (g : Grid) (k : ℕ) : Option Grid :=
  match findEmptySlot g with
  | none => none
  | some (er, ec) =>
    let nbrs := neighborCandidates g er ec
    if nbrs = [] then some g
    else
      let p := nbrs.getD (k % nbrs.length) (0, 0)
      moveTile g p.1 p.2

/-- The `times`-iteration random-move loop of `shuffle`, threading the
random oracle; returns the unconsumed oracle alongside the grid. -/
def shuffleLoop : (ℕ → ℕ) → ℕ → Grid → Option ((ℕ → ℕ) × Grid)
  | r, 0, g => some (r, g)
  | r, n + 1, g =>
    match randStep g (r 0) with
    | none => none
    | some g1 => shuffleLoop (fun i => r (i + 1)) n g1

/-- PuzzleState.shuffle: `times` random valid moves, then one more random
valid move if the result is not solvable. -/
def shuffle (r : ℕ → ℕ) (times : ℕ) (g : Grid) : Option Grid :=
  match shuffleLoop r times g with
  | none => none
  | some (r1, g1) =>
    if isSolvable g1 then some g1
    else randStep g1 (r1 0)

/-- The full multiset of cells of a legal 3x3 grid: tiles `0..7` plus the
one empty marker. -/
def fullCells : List Cell :=
  [.tile 0, .tile 1, .tile 2, .tile 3, .tile 4, .tile 5, .tile 6, .tile 7, .empty]

/-- The documented grid invariant: three rows of three cells, whose cells
are a permutation of tiles `0..7` plus exactly one empty marker. -/
def Inv (g : Grid) : Prop :=
  g.map List.length = [3, 3, 3] ∧ g.flatten.Perm fullCells

instance (g : Grid) : Decidable (Inv g) := by
  unfold Inv
  exact instDecidableAnd

/-- Grid configurations reachable from the solved state by valid
(in-grid) moves. -/
inductive Reachable : Grid → Prop where
  | init : Reachable initialGrid
  | step (g g1 : Grid) (r c : ℕ) : r < 3 → c < 3 → Reachable g →
      moveTile g r c = some g1 → Reachable g1

end PuzzleState

namespace PuzzleState

/-- Cross inversions: pairs with the greater element in `l1`, the smaller
in `l2`. -/
def crossInv (l1 l2 : List Cell) : ℕ :=
  (l1.map (fun a => l2.countP (fun b => cellGT a b))).sum

end PuzzleState

open scoped Classical

noncomputable section

/-- 2D vector over the reals (src/utils/vector.ts); the mutating
return-this methods become pure functions returning the new value. -/
structure Vector where
  x : ℝ
  y : ℝ

namespace Vector

def add (v w : Vector) : Vector := ⟨v.x + w.x, v.y + w.y⟩

def sub (v w : Vector) : Vector := ⟨v.x - w.x, v.y - w.y⟩

def mult (v : Vector) (n : ℝ) : Vector := ⟨v.x * n, v.y * n⟩

def div (v : Vector) (n : ℝ) : Vector :=
  if n = 0 then v else ⟨v.x / n, v.y / n⟩

def mag (v : Vector) : ℝ := Real.sqrt (v.x * v.x + v.y * v.y)

def normalize (v : Vector) : Vector :=
  if v.mag ≠ 0 then v.div v.mag else v

def setMag (v : Vector) (n : ℝ) : Vector := (v.normalize).mult n

def limit (v : Vector) (max : ℝ) : Vector :=
  if v.x * v.x + v.y * v.y > max * max then (v.normalize).mult max else v

def copy (v : Vector) : Vector := v

def dist (v w : Vector) : ℝ :=
  Real.sqrt ((v.x - w.x) * (v.x - w.x) + (v.y - w.y) * (v.y - w.y))

def angleBetween (v other : Vector) : ℝ :=
  let dot := v.x * other.x + v.y * other.y
  let mag1 := Real.sqrt (v.x * v.x + v.y * v.y)
  let mag2 := Real.sqrt (other.x * other.x + other.y * other.y)
  if mag1 = 0 ∨ mag2 = 0 then 0
  else
    let cosAngle := dot / (mag1 * mag2)
    let angle := Real.arccos (max (-1) (min 1 cosAngle))
    let cross := v.x * other.y - v.y * other.x
    if cross ≥ 0 then angle else -angle

end Vector

end

noncomputable section

/-- JS Math.atan2, via the complex argument (both give the angle of the
point (x, y) in (-pi, pi]). -/
def atan2 (y x : ℝ) : ℝ := Complex.arg ⟨x, y⟩

/-- Flocking perception radius (src/boids/Boid.ts). -/
def PERCEPTION_RADIUS : ℝ := 150

/-- Flocking separation radius (src/boids/Boid.ts). -/
def SEPARATION_RADIUS : ℝ := 40

/-- Flock agent (src/boids/Boid.ts); the colour enum becomes a numeric
tag, and the PIXI graphics handle is rendering-only and omitted. -/
structure Boid where
  position : Vector
  velocity : Vector
  acceleration : Vector
  maxForce : ℝ
  maxSpeed : ℝ
  rotation : ℝ
  color : ℕ

namespace Boid

/-- Boid.applyForce: accumulate into the acceleration. -/
def applyForce (b : Boid) (force : Vector) : Boid :=
  { b with acceleration := b.acceleration.add force }

/-- Boid.wrappedDistance, with the ambient window dimensions made
explicit parameters `W H`. -/
def wrappedDistance (W H : ℝ) (b other : Boid) : ℝ :=
  let dx := |b.position.x - other.position.x|
  let dy := |b.position.y - other.position.y|
  if dx > PERCEPTION_RADIUS ∨ dy > PERCEPTION_RADIUS then PERCEPTION_RADIUS + 1
  else
    let wrappedDx := if dx > W / 2 then W - dx else dx
    let wrappedDy := if dy > H / 2 then H - dy else dy
    Real.sqrt (wrappedDx * wrappedDx + wrappedDy * wrappedDy)

/-- The wrapped neighbour position used by cohesion and separation. -/
def wrappedPos (W H : ℝ) (b other : Boid) : Vector :=
  ⟨if |b.position.x - other.position.x| > W / 2 then
      (if b.position.x > W / 2 then other.position.x - W else other.position.x + W)
    else other.position.x,
   if |b.position.y - other.position.y| > H / 2 then
      (if b.position.y > H / 2 then other.position.y - H else other.position.y + H)
    else other.position.y⟩

/-- One iteration of the neighbour loop of Boid.flock, accumulating the
alignment, cohesion and separation sums and the neighbour count.
Elements that are not boids are skipped by a runtime check in the source;
the typed embedding has none.  The reference-identity test `other !== this`
becomes structural inequality. -/
def flockStep (W H : ℝ) (b : Boid) (acc : Vector × Vector × Vector × ℕ)
    (other : Boid) : Vector × Vector × Vector × ℕ :=
  if other.color ≠ b.color then acc
  else
    let d := wrappedDistance W H b other
    if other ≠ b ∧ d < PERCEPTION_RADIUS then
      (acc.1.add other.velocity,
       acc.2.1.add (wrappedPos W H b other),
       if d < SEPARATION_RADIUS then
         acc.2.2.1.add (((b.position.copy.sub (wrappedPos W H b other))).mult
           (1 / max d 0.1))
       else acc.2.2.1,
       acc.2.2.2 + 1)
    else acc

/-- Boid.flock: steer by alignment, cohesion and separation over same
colour neighbours within the perception radius. -/
def flock (W H : ℝ) (b : Boid) (boids : List Boid) : Boid :=
  let r := boids.foldl (flockStep W H b) (⟨0, 0⟩, ⟨0, 0⟩, ⟨0, 0⟩, 0)
  if r.2.2.2 > 0 then
    let total : ℝ := r.2.2.2
    let alignment :=
      ((((r.1.div total).setMag b.maxSpeed).sub b.velocity).limit b.maxForce).mult 0.3
    let cohesion :=
      (((r.2.1.div total).sub b.position).limit b.maxForce).mult 0.5
    let separation :=
      (((r.2.2.1.div total).limit b.maxForce)).mult 1.0
    ((b.applyForce alignment).applyForce cohesion).applyForce separation
  else b

/-- Boid.attractTo: as written, the force is `position - point`, clamped
to `strength`. -/
def attractTo (b : Boid) (point : Vector) (strength : ℝ) : Boid :=
  b.applyForce ((b.position.copy.sub point).limit strength)

/-- Boid.repelFrom: force away from the point, scaled linearly inside the
radius. -/
def repelFrom (b : Boid) (point : Vector) (strength radius : ℝ) : Boid :=
  let d := b.position.dist point
  if d < radius then
    b.applyForce ((b.position.copy.sub point).mult ((1 - d / radius) * strength))
  else b

/-- Boid.edges: sequential single-step edge wrap of the position. -/
def edges (W H : ℝ) (b : Boid) : Boid :=
  let x1 := if b.position.x < 0 then W else b.position.x
  let x2 := if x1 > W then 0 else x1
  let y1 := if b.position.y < 0 then H else b.position.y
  let y2 := if y1 > H then 0 else y1
  { b with position := ⟨x2, y2⟩ }

/-- Boid.update: flock, integrate velocity (clamped to maxSpeed) and
position, set the rotation, reset the acceleration, then wrap at the
edges. -/
def update (W H : ℝ) (b : Boid) (boids : List Boid) : Boid :=
  let b1 := flock W H b boids
  let v2 := (b1.velocity.add b1.acceleration).limit b1.maxSpeed
  let p1 := b1.position.add v2
  edges W H
    { b1 with
      velocity := v2
      position := p1
      rotation := atan2 v2.y v2.x
      acceleration := b1.acceleration.mult 0 }

end Boid

end

noncomputable section

namespace Game

/-- Game.applyCircularFlow: tangential force with exponential falloff
inside the 150-unit interaction radius. -/
def applyCircularFlow (mouse : Vector) (b : Boid) : Boid :=
  let dx := mouse.x - b.position.x
  let dy := mouse.y - b.position.y
  let distanceSquared := dx * dx + dy * dy
  if distanceSquared < 22500 then
    let toCursor : Vector := ⟨dx, dy⟩
    let angle := toCursor.angleBetween b.velocity
    let tangent := (Vector.mk (-dy) dx).normalize
    let tangent2 := if angle < 0 then tangent.mult (-1) else tangent
    let strength := Real.exp (-(Real.sqrt distanceSquared) / 100) * 0.3
    b.applyForce (tangent2.mult strength)
  else b

/-- Game.applyDirectionalFlow: scatter along the velocity when heading
away from the cursor, otherwise charge toward it. -/
def applyDirectionalFlow (mouse : Vector) (b : Boid) : Boid :=
  let dx := mouse.x - b.position.x
  let dy := mouse.y - b.position.y
  let distanceSquared := dx * dx + dy * dy
  if distanceSquared < 22500 then
    let toCursor : Vector := ⟨dx, dy⟩
    let angle := toCursor.angleBetween b.velocity
    if |angle| > Real.pi / 2 then
      let scatter := b.velocity.copy.normalize
      b.applyForce (scatter.mult (Real.exp (-(Real.sqrt distanceSquared) / 50) * 0.5))
    else
      let charge := toCursor.copy.normalize
      b.applyForce (charge.mult (Real.exp (-(Real.sqrt distanceSquared) / 50) * 0.5))
  else b

/-- Per-boid body of Game.update: the boid is updated first, then the
selected cursor-flow force is applied to it. -/
def tickBoid (circular : Bool) (W H : ℝ) (mouse : Vector) (b : Boid)
    (neighbors : List Boid) : Boid :=
  let b1 := Boid.update W H b neighbors
  if circular then applyCircularFlow mouse b1 else applyDirectionalFlow mouse b1

/-- Modelled from the spec: the per-boid tick in the order the spec
asserts, the selected flow force applied via applyForce before update is
invoked.  Declared only to compare against `tickBoid`. -/
def tickBoidSpecOrder (circular : Bool) (W H : ℝ) (mouse : Vector) (b : Boid)
    (neighbors : List Boid) : Boid :=
  Boid.update W H
    (if circular then applyCircularFlow mouse b else applyDirectionalFlow mouse b)
    neighbors

end Game

end

namespace PuzzleState

theorem invAux_append (l1 l2 : List Cell) :
    invAux (l1 ++ l2) = invAux l1 + crossInv l1 l2 + invAux l2 := by
  induction l1 with
  | nil => simp [invAux, crossInv]
  | cons a l ih =>
    simp [invAux, crossInv, List.countP_append] at *
    omega

theorem crossInv_perm_right (l1 : List Cell) {m m1 : List Cell} (h : m.Perm m1) :
    crossInv l1 m = crossInv l1 m1 := by
  unfold crossInv
  have : (fun a => m.countP (fun b => cellGT a b))
      = (fun a => m1.countP (fun b => cellGT a b)) := by
    funext a
    exact h.countP_eq _
  rw [this]

theorem perm_swap4 {α : Type} (x u v y : α) (B : List α) :
    (x :: u :: v :: y :: B).Perm (y :: u :: v :: x :: B) := by
  refine (List.Perm.swap u x (v :: y :: B)).trans ?_
  refine (List.Perm.cons u ((List.Perm.swap v x (y :: B)).trans
    (List.Perm.cons v (List.Perm.swap y x B)))).trans ?_
  refine ((List.Perm.cons u (List.Perm.swap y v (x :: B))).trans
    (List.Perm.swap y u (v :: x :: B)))

/-- Swapping two adjacent entries of a list is a permutation. -/
theorem perm_swapAt {α : Type} (A : List α) (x y : α) (B : List α) :
    (A ++ x :: y :: B).Perm (A ++ y :: x :: B) :=
  List.Perm.append_left A (List.Perm.swap y x B)

/-- Moving an entry across the two entries that separate it from a slot
three positions away is a permutation. -/
theorem perm_rotAt {α : Type} (A : List α) (x u v y : α) (B : List α) :
    (A ++ x :: u :: v :: y :: B).Perm (A ++ y :: u :: v :: x :: B) :=
  List.Perm.append_left A (perm_swap4 x u v y B)

/-- Core parity fact: sliding a tile `t` across two other tiles `u`, `v`
changes the inversion count by an even amount, provided the tile ids are
distinct. -/
theorem invAux_parity_rot3 (A B : List Cell) (u v t : ℕ)
    (hu : u ≠ t) (hv : v ≠ t) :
    invAux (A ++ (.tile u :: .tile v :: .tile t :: B)) % 2
      = invAux (A ++ (.tile t :: .tile u :: .tile v :: B)) % 2 := by
  have hperm : (Cell.tile u :: Cell.tile v :: Cell.tile t :: B).Perm
      (Cell.tile t :: Cell.tile u :: Cell.tile v :: B) := by
    refine (List.Perm.cons _ (List.Perm.swap (Cell.tile t) (Cell.tile v) B)).trans ?_
    exact List.Perm.swap (Cell.tile t) (Cell.tile u) (Cell.tile v :: B)
  rw [invAux_append, invAux_append, crossInv_perm_right A hperm]
  have h1 : invAux (Cell.tile u :: Cell.tile v :: Cell.tile t :: B) % 2
      = invAux (Cell.tile t :: Cell.tile u :: Cell.tile v :: B) % 2 := by
    simp only [invAux, List.countP_cons, cellGT, decide_eq_true_eq]
    rcases Nat.lt_trichotomy u t with h | h | h
    · rcases Nat.lt_trichotomy v t with h2 | h2 | h2
      · simp [h, h2, Nat.lt_asymm h, Nat.lt_asymm h2]
        omega
      · exact absurd h2 hv
      · simp [h, h2, Nat.lt_asymm h, Nat.lt_asymm h2]
        omega
    · exact absurd h hu
    · rcases Nat.lt_trichotomy v t with h2 | h2 | h2
      · simp [h, h2, Nat.lt_asymm h, Nat.lt_asymm h2]
        omega
      · exact absurd h2 hv
      · simp [h, h2, Nat.lt_asymm h, Nat.lt_asymm h2]
        omega
  omega

/-- A cell that is neither the empty marker nor a JS hole is a tile. -/
theorem cell_eq_tile {x : Cell} (h1 : x ≠ Cell.empty) (h2 : x ≠ Cell.undef) :
    ∃ n, x = Cell.tile n := by
  cases x with
  | tile n => exact ⟨n, rfl⟩
  | empty => exact absurd rfl h1
  | undef => exact absurd rfl h2

/-- A grid whose rows all have length three is literally three rows of
three cells. -/
theorem shape_destruct (g : Grid) (h : g.map List.length = [3, 3, 3]) :
    ∃ a0 a1 a2 b0 b1 b2 c0 c1 c2 : Cell,
      g = [[a0, a1, a2], [b0, b1, b2], [c0, c1, c2]] := by
  rcases g with _ | ⟨r0, g⟩
  · simp at h
  rcases g with _ | ⟨r1, g⟩
  · simp at h
  rcases g with _ | ⟨r2, g⟩
  · simp at h
  rcases g with _ | ⟨r3, g⟩
  · simp only [List.map_cons, List.map_nil, List.cons.injEq, and_true] at h
    obtain ⟨h0, h1, h2⟩ := h
    obtain ⟨a0, a1, a2, rfl⟩ := List.length_eq_three.mp h0
    obtain ⟨b0, b1, b2, rfl⟩ := List.length_eq_three.mp h1
    obtain ⟨c0, c1, c2, rfl⟩ := List.length_eq_three.mp h2
    exact ⟨a0, a1, a2, b0, b1, b2, c0, c1, c2, rfl⟩
  · simp at h

end PuzzleState

namespace PuzzleState

/-- A move request that is not orthogonally adjacent to the empty slot
returns the grid unchanged. -/
theorem moveTile_not_adj {g : Grid} {er ec r c : ℕ}
    (h : ((r : ℤ) - er).natAbs + ((c : ℤ) - ec).natAbs ≠ 1)
    (hfe : findEmptySlot g = some (er, ec)) :
    moveTile g r c = some g := by
  unfold moveTile
  simp only [hfe]
  rw [if_neg h]

/-- Main characterisation of an in-grid move on a legal grid: the empty
slot is found, a non-adjacent request is a no-op, and an adjacent request
succeeds, preserves the invariant and the inversion parity, and is undone
by moving the displaced tile back. -/
theorem moveTile_spec (g : Grid) (hg : Inv g) (r c : ℕ) (hr : r < 3) (hc : c < 3) :
    ∃ er ec, er < 3 ∧ ec < 3 ∧ findEmptySlot g = some (er, ec) ∧
      (((r : ℤ) - er).natAbs + ((c : ℤ) - ec).natAbs ≠ 1 → moveTile g r c = some g) ∧
      (((r : ℤ) - er).natAbs + ((c : ℤ) - ec).natAbs = 1 →
        ∃ g1, moveTile g r c = some g1 ∧ Inv g1 ∧
          countInversions g1 % 2 = countInversions g % 2 ∧
          moveTile g1 er ec = some g) := by
  obtain ⟨hshape, hperm⟩ := hg
  obtain ⟨a0, a1, a2, b0, b1, b2, c0, c1, c2, rfl⟩ := shape_destruct _ hshape
  rw [show ([[a0, a1, a2], [b0, b1, b2], [c0, c1, c2]] : Grid).flatten
      = [a0, a1, a2, b0, b1, b2, c0, c1, c2] by simp] at hperm
  have hnd : ([a0, a1, a2, b0, b1, b2, c0, c1, c2] : List Cell).Nodup :=
    hperm.nodup_iff.mpr (by decide)
  have hnu : ∀ x ∈ ([a0, a1, a2, b0, b1, b2, c0, c1, c2] : List Cell), x ≠ Cell.undef := by
    intro x hx h
    subst h
    exact (by decide : Cell.undef ∉ fullCells) (hperm.subset hx)
  have hmem : Cell.empty ∈ ([a0, a1, a2, b0, b1, b2, c0, c1, c2] : List Cell) :=
    hperm.mem_iff.mpr (by decide)
  simp only [List.nodup_cons, List.mem_cons, List.not_mem_nil, or_false, not_or,
    List.nodup_nil, not_false_eq_true, and_true] at hnd
  obtain ⟨⟨h01, h02, h03, h04, h05, h06, h07, h08⟩, ⟨h12, h13, h14, h15, h16, h17, h18⟩,
    ⟨h23, h24, h25, h26, h27, h28⟩, ⟨h34, h35, h36, h37, h38⟩, ⟨h45, h46, h47, h48⟩,
    ⟨h56, h57, h58⟩, ⟨h67, h68⟩, h78⟩ := hnd
  simp only [List.mem_cons, List.not_mem_nil, or_false] at hmem
  rcases hmem with h | h | h | h | h | h | h | h | h
  · -- empty slot at (0, 0)
    subst h
    obtain ⟨x1, rfl⟩ := cell_eq_tile (fun h => h01 h.symm) (hnu a1 (by simp))
    obtain ⟨x2, rfl⟩ := cell_eq_tile (fun h => h02 h.symm) (hnu a2 (by simp))
    obtain ⟨x3, rfl⟩ := cell_eq_tile (fun h => h03 h.symm) (hnu b0 (by simp))
    obtain ⟨x4, rfl⟩ := cell_eq_tile (fun h => h04 h.symm) (hnu b1 (by simp))
    obtain ⟨x5, rfl⟩ := cell_eq_tile (fun h => h05 h.symm) (hnu b2 (by simp))
    obtain ⟨x6, rfl⟩ := cell_eq_tile (fun h => h06 h.symm) (hnu c0 (by simp))
    obtain ⟨x7, rfl⟩ := cell_eq_tile (fun h => h07 h.symm) (hnu c1 (by simp))
    obtain ⟨x8, rfl⟩ := cell_eq_tile (fun h => h08 h.symm) (hnu c2 (by simp))
    refine ⟨0, 0, by norm_num, by norm_num, rfl, fun h => moveTile_not_adj h rfl, ?_⟩
    intro hadj
    have hrc : (r = 0 ∧ c = 1) ∨ (r = 1 ∧ c = 0) := by omega
    rcases hrc with ⟨rfl, rfl⟩ | ⟨rfl, rfl⟩
    · exact ⟨_, rfl, ⟨rfl, (perm_swapAt [] _ _ _).trans hperm⟩, rfl, rfl⟩
    · refine ⟨_, rfl, ⟨rfl, (perm_rotAt [] _ _ _ _ _).trans hperm⟩, ?_, rfl⟩
      exact (invAux_parity_rot3 [] _ x1 x2 x3 (fun h => h13 (by rw [h]))
        (fun h => h23 (by rw [h]))).symm
  · -- empty slot at (0, 1)
    subst h
    obtain ⟨x0, rfl⟩ := cell_eq_tile h01 (hnu a0 (by simp))
    obtain ⟨x2, rfl⟩ := cell_eq_tile (fun h => h12 h.symm) (hnu a2 (by simp))
    obtain ⟨x3, rfl⟩ := cell_eq_tile (fun h => h13 h.symm) (hnu b0 (by simp))
    obtain ⟨x4, rfl⟩ := cell_eq_tile (fun h => h14 h.symm) (hnu b1 (by simp))
    obtain ⟨x5, rfl⟩ := cell_eq_tile (fun h => h15 h.symm) (hnu b2 (by simp))
    obtain ⟨x6, rfl⟩ := cell_eq_tile (fun h => h16 h.symm) (hnu c0 (by simp))
    obtain ⟨x7, rfl⟩ := cell_eq_tile (fun h => h17 h.symm) (hnu c1 (by simp))
    obtain ⟨x8, rfl⟩ := cell_eq_tile (fun h => h18 h.symm) (hnu c2 (by simp))
    refine ⟨0, 1, by norm_num, by norm_num, rfl, fun h => moveTile_not_adj h rfl, ?_⟩
    intro hadj
    have hrc : (r = 0 ∧ c = 0) ∨ (r = 0 ∧ c = 2) ∨ (r = 1 ∧ c = 1) := by omega
    rcases hrc with ⟨rfl, rfl⟩ | ⟨rfl, rfl⟩ | ⟨rfl, rfl⟩
    · exact ⟨_, rfl, ⟨rfl, (perm_swapAt [] _ _ _).trans hperm⟩, rfl, rfl⟩
    · exact ⟨_, rfl, ⟨rfl, (perm_swapAt [Cell.tile x0] _ _ _).trans hperm⟩, rfl, rfl⟩
    · refine ⟨_, rfl, ⟨rfl, (perm_rotAt [Cell.tile x0] _ _ _ _ _).trans hperm⟩, ?_, rfl⟩
      exact (invAux_parity_rot3 [Cell.tile x0] _ x2 x3 x4 (fun h => h24 (by rw [h]))
        (fun h => h34 (by rw [h]))).symm
  · -- empty slot at (0, 2)
    subst h
    obtain ⟨x0, rfl⟩ := cell_eq_tile h02 (hnu a0 (by simp))
    obtain ⟨x1, rfl⟩ := cell_eq_tile h12 (hnu a1 (by simp))
    obtain ⟨x3, rfl⟩ := cell_eq_tile (fun h => h23 h.symm) (hnu b0 (by simp))
    obtain ⟨x4, rfl⟩ := cell_eq_tile (fun h => h24 h.symm) (hnu b1 (by simp))
    obtain ⟨x5, rfl⟩ := cell_eq_tile (fun h => h25 h.symm) (hnu b2 (by simp))
    obtain ⟨x6, rfl⟩ := cell_eq_tile (fun h => h26 h.symm) (hnu c0 (by simp))
    obtain ⟨x7, rfl⟩ := cell_eq_tile (fun h => h27 h.symm) (hnu c1 (by simp))
    obtain ⟨x8, rfl⟩ := cell_eq_tile (fun h => h28 h.symm) (hnu c2 (by simp))
    refine ⟨0, 2, by norm_num, by norm_num, rfl, fun h => moveTile_not_adj h rfl, ?_⟩
    intro hadj
    have hrc : (r = 0 ∧ c = 1) ∨ (r = 1 ∧ c = 2) := by omega
    rcases hrc with ⟨rfl, rfl⟩ | ⟨rfl, rfl⟩
    · exact ⟨_, rfl, ⟨rfl, (perm_swapAt [Cell.tile x0] _ _ _).trans hperm⟩, rfl, rfl⟩
    · refine ⟨_, rfl, ⟨rfl, (perm_rotAt [Cell.tile x0, Cell.tile x1] _ _ _ _ _).trans hperm⟩, ?_, rfl⟩
      exact (invAux_parity_rot3 [Cell.tile x0, Cell.tile x1] _ x3 x4 x5 (fun h => h35 (by rw [h]))
        (fun h => h45 (by rw [h]))).symm
  · -- empty slot at (1, 0)
    subst h
    obtain ⟨x0, rfl⟩ := cell_eq_tile h03 (hnu a0 (by simp))
    obtain ⟨x1, rfl⟩ := cell_eq_tile h13 (hnu a1 (by simp))
    obtain ⟨x2, rfl⟩ := cell_eq_tile h23 (hnu a2 (by simp))
    obtain ⟨x4, rfl⟩ := cell_eq_tile (fun h => h34 h.symm) (hnu b1 (by simp))
    obtain ⟨x5, rfl⟩ := cell_eq_tile (fun h => h35 h.symm) (hnu b2 (by simp))
    obtain ⟨x6, rfl⟩ := cell_eq_tile (fun h => h36 h.symm) (hnu c0 (by simp))
    obtain ⟨x7, rfl⟩ := cell_eq_tile (fun h => h37 h.symm) (hnu c1 (by simp))
    obtain ⟨x8, rfl⟩ := cell_eq_tile (fun h => h38 h.symm) (hnu c2 (by simp))
    refine ⟨1, 0, by norm_num, by norm_num, rfl, fun h => moveTile_not_adj h rfl, ?_⟩
    intro hadj
    have hrc : (r = 0 ∧ c = 0) ∨ (r = 1 ∧ c = 1) ∨ (r = 2 ∧ c = 0) := by omega
    rcases hrc with ⟨rfl, rfl⟩ | ⟨rfl, rfl⟩ | ⟨rfl, rfl⟩
    · refine ⟨_, rfl, ⟨rfl, (perm_rotAt [] _ _ _ _ _).trans hperm⟩, ?_, rfl⟩
      exact invAux_parity_rot3 [] _ x1 x2 x0 (fun h => h01 (by rw [h]))
        (fun h => h02 (by rw [h]))
    · exact ⟨_, rfl, ⟨rfl, (perm_swapAt [Cell.tile x0, Cell.tile x1, Cell.tile x2] _ _ _).trans hperm⟩, rfl, rfl⟩
    · refine ⟨_, rfl, ⟨rfl, (perm_rotAt [Cell.tile x0, Cell.tile x1, Cell.tile x2] _ _ _ _ _).trans hperm⟩, ?_, rfl⟩
      exact (invAux_parity_rot3 [Cell.tile x0, Cell.tile x1, Cell.tile x2] _ x4 x5 x6 (fun h => h46 (by rw [h]))
        (fun h => h56 (by rw [h]))).symm
  · -- empty slot at (1, 1)
    subst h
    obtain ⟨x0, rfl⟩ := cell_eq_tile h04 (hnu a0 (by simp))
    obtain ⟨x1, rfl⟩ := cell_eq_tile h14 (hnu a1 (by simp))
    obtain ⟨x2, rfl⟩ := cell_eq_tile h24 (hnu a2 (by simp))
    obtain ⟨x3, rfl⟩ := cell_eq_tile h34 (hnu b0 (by simp))
    obtain ⟨x5, rfl⟩ := cell_eq_tile (fun h => h45 h.symm) (hnu b2 (by simp))
    obtain ⟨x6, rfl⟩ := cell_eq_tile (fun h => h46 h.symm) (hnu c0 (by simp))
    obtain ⟨x7, rfl⟩ := cell_eq_tile (fun h => h47 h.symm) (hnu c1 (by simp))
    obtain ⟨x8, rfl⟩ := cell_eq_tile (fun h => h48 h.symm) (hnu c2 (by simp))
    refine ⟨1, 1, by norm_num, by norm_num, rfl, fun h => moveTile_not_adj h rfl, ?_⟩
    intro hadj
    have hrc : (r = 0 ∧ c = 1) ∨ (r = 1 ∧ c = 0) ∨ (r = 1 ∧ c = 2) ∨ (r = 2 ∧ c = 1) := by omega
    rcases hrc with ⟨rfl, rfl⟩ | ⟨rfl, rfl⟩ | ⟨rfl, rfl⟩ | ⟨rfl, rfl⟩
    · refine ⟨_, rfl, ⟨rfl, (perm_rotAt [Cell.tile x0] _ _ _ _ _).trans hperm⟩, ?_, rfl⟩
      exact invAux_parity_rot3 [Cell.tile x0] _ x2 x3 x1 (fun h => h12 (by rw [h]))
        (fun h => h13 (by rw [h]))
    · exact ⟨_, rfl, ⟨rfl, (perm_swapAt [Cell.tile x0, Cell.tile x1, Cell.tile x2] _ _ _).trans hperm⟩, rfl, rfl⟩
    · exact ⟨_, rfl, ⟨rfl, (perm_swapAt [Cell.tile x0, Cell.tile x1, Cell.tile x2, Cell.tile x3] _ _ _).trans hperm⟩, rfl, rfl⟩
    · refine ⟨_, rfl, ⟨rfl, (perm_rotAt [Cell.tile x0, Cell.tile x1, Cell.tile x2, Cell.tile x3] _ _ _ _ _).trans hperm⟩, ?_, rfl⟩
      exact (invAux_parity_rot3 [Cell.tile x0, Cell.tile x1, Cell.tile x2, Cell.tile x3] _ x5 x6 x7 (fun h => h57 (by rw [h]))
        (fun h => h67 (by rw [h]))).symm
  · -- empty slot at (1, 2)
    subst h
    obtain ⟨x0, rfl⟩ := cell_eq_tile h05 (hnu a0 (by simp))
    obtain ⟨x1, rfl⟩ := cell_eq_tile h15 (hnu a1 (by simp))
    obtain ⟨x2, rfl⟩ := cell_eq_tile h25 (hnu a2 (by simp))
    obtain ⟨x3, rfl⟩ := cell_eq_tile h35 (hnu b0 (by simp))
    obtain ⟨x4, rfl⟩ := cell_eq_tile h45 (hnu b1 (by simp))
    obtain ⟨x6, rfl⟩ := cell_eq_tile (fun h => h56 h.symm) (hnu c0 (by simp))
    obtain ⟨x7, rfl⟩ := cell_eq_tile (fun h => h57 h.symm) (hnu c1 (by simp))
    obtain ⟨x8, rfl⟩ := cell_eq_tile (fun h => h58 h.symm) (hnu c2 (by simp))
    refine ⟨1, 2, by norm_num, by norm_num, rfl, fun h => moveTile_not_adj h rfl, ?_⟩
    intro hadj
    have hrc : (r = 0 ∧ c = 2) ∨ (r = 1 ∧ c = 1) ∨ (r = 2 ∧ c = 2) := by omega
    rcases hrc with ⟨rfl, rfl⟩ | ⟨rfl, rfl⟩ | ⟨rfl, rfl⟩
    · refine ⟨_, rfl, ⟨rfl, (perm_rotAt [Cell.tile x0, Cell.tile x1] _ _ _ _ _).trans hperm⟩, ?_, rfl⟩
      exact invAux_parity_rot3 [Cell.tile x0, Cell.tile x1] _ x3 x4 x2 (fun h => h23 (by rw [h]))
        (fun h => h24 (by rw [h]))
    · exact ⟨_, rfl, ⟨rfl, (perm_swapAt [Cell.tile x0, Cell.tile x1, Cell.tile x2, Cell.tile x3] _ _ _).trans hperm⟩, rfl, rfl⟩
    · refine ⟨_, rfl, ⟨rfl, (perm_rotAt [Cell.tile x0, Cell.tile x1, Cell.tile x2, Cell.tile x3, Cell.tile x4] _ _ _ _ _).trans hperm⟩, ?_, rfl⟩
      exact (invAux_parity_rot3 [Cell.tile x0, Cell.tile x1, Cell.tile x2, Cell.tile x3, Cell.tile x4] _ x6 x7 x8 (fun h => h68 (by rw [h]))
        (fun h => h78 (by rw [h]))).symm
  · -- empty slot at (2, 0)
    subst h
    obtain ⟨x0, rfl⟩ := cell_eq_tile h06 (hnu a0 (by simp))
    obtain ⟨x1, rfl⟩ := cell_eq_tile h16 (hnu a1 (by simp))
    obtain ⟨x2, rfl⟩ := cell_eq_tile h26 (hnu a2 (by simp))
    obtain ⟨x3, rfl⟩ := cell_eq_tile h36 (hnu b0 (by simp))
    obtain ⟨x4, rfl⟩ := cell_eq_tile h46 (hnu b1 (by simp))
    obtain ⟨x5, rfl⟩ := cell_eq_tile h56 (hnu b2 (by simp))
    obtain ⟨x7, rfl⟩ := cell_eq_tile (fun h => h67 h.symm) (hnu c1 (by simp))
    obtain ⟨x8, rfl⟩ := cell_eq_tile (fun h => h68 h.symm) (hnu c2 (by simp))
    refine ⟨2, 0, by norm_num, by norm_num, rfl, fun h => moveTile_not_adj h rfl, ?_⟩
    intro hadj
    have hrc : (r = 1 ∧ c = 0) ∨ (r = 2 ∧ c = 1) := by omega
    rcases hrc with ⟨rfl, rfl⟩ | ⟨rfl, rfl⟩
    · refine ⟨_, rfl, ⟨rfl, (perm_rotAt [Cell.tile x0, Cell.tile x1, Cell.tile x2] _ _ _ _ _).trans hperm⟩, ?_, rfl⟩
      exact invAux_parity_rot3 [Cell.tile x0, Cell.tile x1, Cell.tile x2] _ x4 x5 x3 (fun h => h34 (by rw [h]))
        (fun h => h35 (by rw [h]))
    · exact ⟨_, rfl, ⟨rfl, (perm_swapAt [Cell.tile x0, Cell.tile x1, Cell.tile x2, Cell.tile x3, Cell.tile x4, Cell.tile x5] _ _ _).trans hperm⟩, rfl, rfl⟩
  · -- empty slot at (2, 1)
    subst h
    obtain ⟨x0, rfl⟩ := cell_eq_tile h07 (hnu a0 (by simp))
    obtain ⟨x1, rfl⟩ := cell_eq_tile h17 (hnu a1 (by simp))
    obtain ⟨x2, rfl⟩ := cell_eq_tile h27 (hnu a2 (by simp))
    obtain ⟨x3, rfl⟩ := cell_eq_tile h37 (hnu b0 (by simp))
    obtain ⟨x4, rfl⟩ := cell_eq_tile h47 (hnu b1 (by simp))
    obtain ⟨x5, rfl⟩ := cell_eq_tile h57 (hnu b2 (by simp))
    obtain ⟨x6, rfl⟩ := cell_eq_tile h67 (hnu c0 (by simp))
    obtain ⟨x8, rfl⟩ := cell_eq_tile (fun h => h78 h.symm) (hnu c2 (by simp))
    refine ⟨2, 1, by norm_num, by norm_num, rfl, fun h => moveTile_not_adj h rfl, ?_⟩
    intro hadj
    have hrc : (r = 1 ∧ c = 1) ∨ (r = 2 ∧ c = 0) ∨ (r = 2 ∧ c = 2) := by omega
    rcases hrc with ⟨rfl, rfl⟩ | ⟨rfl, rfl⟩ | ⟨rfl, rfl⟩
    · refine ⟨_, rfl, ⟨rfl, (perm_rotAt [Cell.tile x0, Cell.tile x1, Cell.tile x2, Cell.tile x3] _ _ _ _ _).trans hperm⟩, ?_, rfl⟩
      exact invAux_parity_rot3 [Cell.tile x0, Cell.tile x1, Cell.tile x2, Cell.tile x3] _ x5 x6 x4 (fun h => h45 (by rw [h]))
        (fun h => h46 (by rw [h]))
    · exact ⟨_, rfl, ⟨rfl, (perm_swapAt [Cell.tile x0, Cell.tile x1, Cell.tile x2, Cell.tile x3, Cell.tile x4, Cell.tile x5] _ _ _).trans hperm⟩, rfl, rfl⟩
    · exact ⟨_, rfl, ⟨rfl, (perm_swapAt [Cell.tile x0, Cell.tile x1, Cell.tile x2, Cell.tile x3, Cell.tile x4, Cell.tile x5, Cell.tile x6] _ _ _).trans hperm⟩, rfl, rfl⟩
  · -- empty slot at (2, 2)
    subst h
    obtain ⟨x0, rfl⟩ := cell_eq_tile h08 (hnu a0 (by simp))
    obtain ⟨x1, rfl⟩ := cell_eq_tile h18 (hnu a1 (by simp))
    obtain ⟨x2, rfl⟩ := cell_eq_tile h28 (hnu a2 (by simp))
    obtain ⟨x3, rfl⟩ := cell_eq_tile h38 (hnu b0 (by simp))
    obtain ⟨x4, rfl⟩ := cell_eq_tile h48 (hnu b1 (by simp))
    obtain ⟨x5, rfl⟩ := cell_eq_tile h58 (hnu b2 (by simp))
    obtain ⟨x6, rfl⟩ := cell_eq_tile h68 (hnu c0 (by simp))
    obtain ⟨x7, rfl⟩ := cell_eq_tile h78 (hnu c1 (by simp))
    refine ⟨2, 2, by norm_num, by norm_num, rfl, fun h => moveTile_not_adj h rfl, ?_⟩
    intro hadj
    have hrc : (r = 1 ∧ c = 2) ∨ (r = 2 ∧ c = 1) := by omega
    rcases hrc with ⟨rfl, rfl⟩ | ⟨rfl, rfl⟩
    · refine ⟨_, rfl, ⟨rfl, (perm_rotAt [Cell.tile x0, Cell.tile x1, Cell.tile x2, Cell.tile x3, Cell.tile x4] _ _ _ _ _).trans hperm⟩, ?_, rfl⟩
      exact invAux_parity_rot3 [Cell.tile x0, Cell.tile x1, Cell.tile x2, Cell.tile x3, Cell.tile x4] _ x6 x7 x5 (fun h => h56 (by rw [h]))
        (fun h => h57 (by rw [h]))
    · exact ⟨_, rfl, ⟨rfl, (perm_swapAt [Cell.tile x0, Cell.tile x1, Cell.tile x2, Cell.tile x3, Cell.tile x4, Cell.tile x5, Cell.tile x6] _ _ _).trans hperm⟩, rfl, rfl⟩

end PuzzleState

namespace PuzzleState

/-- A legal grid always has an empty slot to find. -/
theorem findEmptySlot_of_inv (g : Grid) (hg : Inv g) :
    ∃ er ec, er < 3 ∧ ec < 3 ∧ findEmptySlot g = some (er, ec) := by
  obtain ⟨er, ec, h1, h2, h3, _⟩ := moveTile_spec g hg 0 0 (by norm_num) (by norm_num)
  exact ⟨er, ec, h1, h2, h3⟩

theorem getD_mod_mem {α : Type} (l : List α) (h : ¬ l = []) (k : ℕ) (d : α) :
    l.getD (k % l.length) d ∈ l := by
  have hl : 0 < l.length := List.length_pos.mpr h
  have hk : k % l.length < l.length := Nat.mod_lt _ hl
  rw [List.getD_eq_getElem l d hk]
  exact l.getElem_mem hk

/-- Every shuffle candidate is an in-grid position. -/
theorem neighborCandidates_bounds {g : Grid} {er ec : ℕ} {p : ℕ × ℕ}
    (h : p ∈ neighborCandidates g er ec) : p.1 < 3 ∧ p.2 < 3 := by
  unfold neighborCandidates at h
  simp only [List.mem_map, List.mem_filter] at h
  obtain ⟨z, ⟨_, hz⟩, rfl⟩ := h
  simp only [Bool.and_eq_true, decide_eq_true_eq] at hz
  omega

/-- One loop body of `shuffle` never throws on a legal grid, and preserves
the invariant and the inversion parity. -/
theorem randStep_spec (g : Grid) (hg : Inv g) (k : ℕ) :
    ∃ g1, randStep g k = some g1 ∧ Inv g1 ∧
      countInversions g1 % 2 = countInversions g % 2 := by
  obtain ⟨er, ec, _, _, hfe⟩ := findEmptySlot_of_inv g hg
  unfold randStep
  simp only [hfe]
  by_cases hn : neighborCandidates g er ec = []
  · simp only [hn, if_pos rfl]
    exact ⟨g, rfl, hg, rfl⟩
  · simp only [if_neg hn]
    have hmem := getD_mod_mem _ hn k ((0, 0) : ℕ × ℕ)
    obtain ⟨hp1, hp2⟩ := neighborCandidates_bounds hmem
    obtain ⟨er1, ec1, _, _, hfe1, hnot, hyes⟩ := moveTile_spec g hg _ _ hp1 hp2
    by_cases hadj : ((((neighborCandidates g er ec).getD (k % (neighborCandidates g er ec).length) (0, 0)).1 : ℤ) - er1).natAbs + ((((neighborCandidates g er ec).getD (k % (neighborCandidates g er ec).length) (0, 0)).2 : ℤ) - ec1).natAbs = 1
    · obtain ⟨g1, hmv, hinv, hpar, _⟩ := hyes hadj
      exact ⟨g1, hmv, hinv, hpar⟩
    · exact ⟨g, hnot hadj, hg, rfl⟩

/-- The random-move loop of `shuffle` never throws on a legal grid and
preserves the invariant and the inversion parity. -/
theorem shuffleLoop_spec : ∀ (n : ℕ) (r : ℕ → ℕ) (g : Grid), Inv g →
    ∃ r1 g1, shuffleLoop r n g = some (r1, g1) ∧ Inv g1 ∧
      countInversions g1 % 2 = countInversions g % 2 := by
  intro n
  induction n with
  | zero => exact fun r g hg => ⟨r, g, rfl, hg, rfl⟩
  | succ m ih =>
    intro r g hg
    obtain ⟨ga, hga, hinva, hpara⟩ := randStep_spec g hg (r 0)
    obtain ⟨r1, g1, hloop, hinv1, hpar1⟩ := ih (fun i => r (i + 1)) ga hinva
    refine ⟨r1, g1, ?_, hinv1, ?_⟩
    · simp only [shuffleLoop, hga]
      exact hloop
    · omega

/-- Even inversion count is exactly what `isSolvable` reports. -/
theorem isSolvable_iff (g : Grid) :
    isSolvable g = true ↔ countInversions g % 2 = 0 := by
  simp [isSolvable]

/-- `shuffle` never throws on a legal grid, preserves the invariant, and
preserves the inversion parity (the fixup move cannot change it either). -/
theorem shuffle_spec (r : ℕ → ℕ) (times : ℕ) (g : Grid) (hg : Inv g) :
    ∃ g2, shuffle r times g = some g2 ∧ Inv g2 ∧
      countInversions g2 % 2 = countInversions g % 2 := by
  obtain ⟨r1, g1, hloop, hinv1, hpar1⟩ := shuffleLoop_spec times r g hg
  unfold shuffle
  simp only [hloop]
  by_cases hs : isSolvable g1 = true
  · simp only [hs, if_pos rfl]
    exact ⟨g1, rfl, hinv1, hpar1⟩
  · simp only [hs]
    rw [if_neg (by simp [hs])]
    obtain ⟨g2, hstep, hinv2, hpar2⟩ := randStep_spec g1 hinv1 (r1 0)
    exact ⟨g2, hstep, hinv2, by omega⟩

/-- Reachable grids are legal and have even inversion parity. -/
theorem reachable_inv : ∀ g : Grid, Reachable g →
    Inv g ∧ countInversions g % 2 = 0 := by
  intro g h
  induction h with
  | init => exact ⟨by decide, by decide⟩
  | step ga g1 r c hr hc _ hmv ih =>
    obtain ⟨hinv, hpar⟩ := ih
    obtain ⟨er, ec, _, _, _, hnot, hyes⟩ := moveTile_spec ga hinv r c hr hc
    by_cases hadj : ((r : ℤ) - er).natAbs + ((c : ℤ) - ec).natAbs = 1
    · obtain ⟨g2, hmv2, hinv2, hpar2, _⟩ := hyes hadj
      rw [hmv] at hmv2
      obtain rfl := Option.some.injEq _ _ ▸ hmv2
      exact ⟨hinv2, by omega⟩
    · rw [hmv] at hnot
      obtain rfl := Option.some.injEq _ _ ▸ (hnot hadj)
      exact ⟨hinv, hpar⟩

end PuzzleState

namespace PuzzleState

/-- C4: for every number of moves and every sequence of random choices,
`shuffle` applied to the solved configuration or any configuration
reachable from it by valid moves never throws and leaves the puzzle
solvable: the inversion count of the result is even (the fixup branch
performs one more random valid move whenever the post-loop count is odd). -/
theorem shuffle_reachable_solvable (r : ℕ → ℕ) (times : ℕ) (g : Grid)
    (hg : Reachable g) :
    ∃ g2, shuffle r times g = some g2 ∧ isSolvable g2 = true := by
  obtain ⟨hinv, hpar⟩ := reachable_inv g hg
  obtain ⟨g2, hs, _, hpar2⟩ := shuffle_spec r times g hinv
  exact ⟨g2, hs, (isSolvable_iff g2).mpr (by omega)⟩

/-- C4 witness: the solved grid is reachable, and a concrete shuffle of it
is solvable. -/
theorem shuffle_reachable_solvable_witness :
    Reachable initialGrid ∧
      ∃ g2, shuffle (fun i => i + 2) 5 initialGrid = some g2 ∧ isSolvable g2 = true :=
  ⟨Reachable.init, shuffle_reachable_solvable (fun i => i + 2) 5 initialGrid Reachable.init⟩

/-- C7: on a legal grid, every in-grid `moveTile` and every `shuffle`
(any count, any random choices) preserves the grid invariant: three rows
of three cells whose cell multiset is exactly tiles `0..7` plus the one
empty marker, so no tile is created, destroyed or duplicated. -/
theorem puzzle_invariant_preserved (g : Grid) (hg : Inv g) :
    (∀ r c g1, r < 3 → c < 3 → moveTile g r c = some g1 → Inv g1) ∧
    (∀ rand n g2, shuffle rand n g = some g2 → Inv g2) := by
  constructor
  · intro r c g1 hr hc hmv
    obtain ⟨er, ec, _, _, _, hnot, hyes⟩ := moveTile_spec g hg r c hr hc
    by_cases hadj : ((r : ℤ) - er).natAbs + ((c : ℤ) - ec).natAbs = 1
    · obtain ⟨g2, hmv2, hinv2, _, _⟩ := hyes hadj
      rw [hmv] at hmv2
      obtain rfl := Option.some.injEq _ _ ▸ hmv2
      exact hinv2
    · rw [hmv] at hnot
      obtain rfl := Option.some.injEq _ _ ▸ (hnot hadj)
      exact hg
  · intro rand n g2 hs
    obtain ⟨g3, hs3, hinv3, _⟩ := shuffle_spec rand n g hg
    rw [hs] at hs3
    obtain rfl := Option.some.injEq _ _ ▸ hs3
    exact hinv3

/-- C7 witness: instantiated at the solved grid. -/
theorem puzzle_invariant_preserved_witness :
    Inv initialGrid ∧
      ((∀ r c g1, r < 3 → c < 3 → moveTile initialGrid r c = some g1 → Inv g1) ∧
       (∀ rand n g2, shuffle rand n initialGrid = some g2 → Inv g2)) :=
  ⟨by decide, puzzle_invariant_preserved initialGrid (by decide)⟩

/-- C8: on a legal grid, a request for an in-grid cell that is not
orthogonally adjacent to the empty slot leaves the grid unchanged, and a
single adjacent move is reversed exactly by moving the displaced tile
back into the previous empty slot. -/
theorem moveTile_noop_and_reversible (g : Grid) (hg : Inv g) (er ec r c : ℕ)
    (hfe : findEmptySlot g = some (er, ec)) (hr : r < 3) (hc : c < 3) :
    (((r : ℤ) - er).natAbs + ((c : ℤ) - ec).natAbs ≠ 1 → moveTile g r c = some g) ∧
    (((r : ℤ) - er).natAbs + ((c : ℤ) - ec).natAbs = 1 →
      ∃ g1, moveTile g r c = some g1 ∧ moveTile g1 er ec = some g) := by
  obtain ⟨er1, ec1, _, _, hfe1, hnot, hyes⟩ := moveTile_spec g hg r c hr hc
  rw [hfe] at hfe1
  simp only [Option.some.injEq, Prod.mk.injEq] at hfe1
  obtain ⟨rfl, rfl⟩ := hfe1
  refine ⟨hnot, fun hadj => ?_⟩
  obtain ⟨g1, hmv, _, _, hrev⟩ := hyes hadj
  exact ⟨g1, hmv, hrev⟩

/-- C8 witness: on the solved grid the empty slot is at (2, 2); the move
request (2, 1) is adjacent and reversible. -/
theorem moveTile_noop_and_reversible_witness :
    Inv initialGrid ∧ findEmptySlot initialGrid = some (2, 2) ∧
      ((((2 : ℕ) : ℤ) - (2 : ℕ)).natAbs + (((1 : ℕ) : ℤ) - (2 : ℕ)).natAbs ≠ 1 →
        moveTile initialGrid 2 1 = some initialGrid) ∧
      ((((2 : ℕ) : ℤ) - (2 : ℕ)).natAbs + (((1 : ℕ) : ℤ) - (2 : ℕ)).natAbs = 1 →
        ∃ g1, moveTile initialGrid 2 1 = some g1 ∧ moveTile g1 2 2 = some initialGrid) :=
  ⟨by decide, by decide,
    moveTile_noop_and_reversible initialGrid (by decide) 2 2 2 1 (by decide)
      (by norm_num) (by norm_num)⟩

/-- C10: `canMove` checks only the Manhattan distance, with no bounds
check: with the empty slot at (2, 2), the out-of-grid cell (2, 3) is
accepted; `moveTile (2, 3)` then reads `undefined` from beyond row 2 and
writes past its end, after which the scanned 3x3 region contains no empty
slot, the invariant is broken and `findEmptySlot` fails (throws). -/
theorem canMove_no_bounds_check :
    canMove initialGrid 2 3 = some true ∧
      moveTile initialGrid 2 3 =
        some [[.tile 0, .tile 1, .tile 2], [.tile 3, .tile 4, .tile 5],
              [.tile 6, .tile 7, .undef, .empty]] ∧
      (moveTile initialGrid 2 3).bind findEmptySlot = none ∧
      ¬ Inv [[.tile 0, .tile 1, .tile 2], [.tile 3, .tile 4, .tile 5],
             [.tile 6, .tile 7, .undef, .empty]] := by
  decide

end PuzzleState

namespace Vector

/-- Clamping to a nonnegative bound yields a magnitude at most the
bound. -/
theorem limit_mag_le (v : Vector) (m : ℝ) (hm : 0 ≤ m) :
    (v.limit m).mag ≤ m := by
  unfold limit
  split
  case isTrue h =>
    have hpos : 0 < v.x * v.x + v.y * v.y := lt_of_le_of_lt (mul_self_nonneg m) h
    have hmag : 0 < v.mag := Real.sqrt_pos.mpr hpos
    have hne : v.mag ≠ 0 := ne_of_gt hmag
    have hred : (v.normalize).mult m = ⟨v.x / v.mag * m, v.y / v.mag * m⟩ := by
      unfold normalize
      rw [if_pos hne]
      unfold div
      rw [if_neg hne]
      rfl
    rw [hred]
    have hmm : v.mag * v.mag = v.x * v.x + v.y * v.y := Real.mul_self_sqrt hpos.le
    have hsq : (v.x / v.mag * m) * (v.x / v.mag * m) +
        (v.y / v.mag * m) * (v.y / v.mag * m) = m * m := by
      field_simp
      rw [show v.x * m * (v.x * m) + v.y * m * (v.y * m)
          = (v.x * v.x + v.y * v.y) * (m * m) by ring, ← hmm]
      ring
    rw [show (⟨v.x / v.mag * m, v.y / v.mag * m⟩ : Vector).mag
        = Real.sqrt ((v.x / v.mag * m) * (v.x / v.mag * m) +
          (v.y / v.mag * m) * (v.y / v.mag * m)) from rfl]
    rw [hsq, Real.sqrt_mul_self hm]
  case isFalse h =>
    push_neg at h
    unfold mag
    calc Real.sqrt (v.x * v.x + v.y * v.y) ≤ Real.sqrt (m * m) := Real.sqrt_le_sqrt h
      _ = m := Real.sqrt_mul_self hm

end Vector

namespace Boid

/-- applyForce changes only the acceleration. -/
theorem applyForce_fields (b : Boid) (f : Vector) :
    (b.applyForce f).position = b.position ∧ (b.applyForce f).velocity = b.velocity ∧
      (b.applyForce f).maxSpeed = b.maxSpeed ∧ (b.applyForce f).maxForce = b.maxForce := by
  exact ⟨rfl, rfl, rfl, rfl⟩

/-- flock only accumulates forces: position, velocity and the limits are
untouched. -/
theorem flock_fields (W H : ℝ) (b : Boid) (ns : List Boid) :
    (flock W H b ns).position = b.position ∧ (flock W H b ns).velocity = b.velocity ∧
      (flock W H b ns).maxSpeed = b.maxSpeed := by
  simp only [flock]
  split
  · exact ⟨rfl, rfl, rfl⟩
  · exact ⟨rfl, rfl, rfl⟩

/-- The velocity produced by update is the flock-accumulated velocity
clamped to the boid's maxSpeed. -/
theorem update_velocity (W H : ℝ) (b : Boid) (ns : List Boid) :
    (update W H b ns).velocity
      = ((b.velocity.add (flock W H b ns).acceleration).limit b.maxSpeed) := by
  have h1 : (update W H b ns).velocity
      = (((flock W H b ns).velocity.add (flock W H b ns).acceleration).limit
          (flock W H b ns).maxSpeed) := rfl
  rw [h1, (flock_fields W H b ns).2.1, (flock_fields W H b ns).2.2]

end Boid

/-- C3: after update the velocity magnitude never exceeds the boid's
maxSpeed, whatever forces the tick accumulated. -/
theorem velocity_bounded_after_update (W H : ℝ) (b : Boid) (ns : List Boid)
    (h : 0 ≤ b.maxSpeed) :
    (Boid.update W H b ns).velocity.mag ≤ b.maxSpeed := by
  rw [Boid.update_velocity]
  exact Vector.limit_mag_le _ _ h

/-- C3 witness: a concrete boid with maxSpeed 3 and no neighbours. -/
theorem velocity_bounded_after_update_witness :
    (0 : ℝ) ≤ 3 ∧
      (Boid.update 100 100
        { position := ⟨1, 10⟩, velocity := ⟨-2, 0⟩, acceleration := ⟨0, 0⟩,
          maxForce := 0.1, maxSpeed := 3, rotation := 0, color := 0 }
        []).velocity.mag ≤ 3 :=
  ⟨by norm_num,
    velocity_bounded_after_update 100 100
      { position := ⟨1, 10⟩, velocity := ⟨-2, 0⟩, acceleration := ⟨0, 0⟩,
        maxForce := 0.1, maxSpeed := 3, rotation := 0, color := 0 }
      [] (by norm_num)⟩

/-- Flocking over an empty neighbour list applies no force. -/
theorem flock_nil (W H : ℝ) (b : Boid) : Boid.flock W H b [] = b := by
  simp [Boid.flock]

/-- The edge wrap lands each coordinate in the closed box `[0, W] x [0, H]`:
a negative coordinate becomes the extent itself, one beyond the extent
becomes zero. -/
theorem edges_mem_box (W H : ℝ) (hW : 0 ≤ W) (hH : 0 ≤ H) (b : Boid) :
    (Boid.edges W H b).position.x ∈ Set.Icc 0 W ∧
      (Boid.edges W H b).position.y ∈ Set.Icc 0 H := by
  simp only [Boid.edges, Set.mem_Icc]
  constructor
  · split_ifs with h1 h2 h3 <;> constructor <;> linarith
  · split_ifs with h1 h2 h3 <;> constructor <;> linarith

/-- C5 (amended): after update every coordinate lies in the closed
interval `[0, extent]`; the wrap is a single step to the opposite edge,
so a coordinate that left through the low edge sits exactly at the
extent. -/
theorem update_position_in_closed_box (W H : ℝ) (hW : 0 ≤ W) (hH : 0 ≤ H)
    (b : Boid) (ns : List Boid) :
    (Boid.update W H b ns).position.x ∈ Set.Icc 0 W ∧
      (Boid.update W H b ns).position.y ∈ Set.Icc 0 H :=
  edges_mem_box W H hW hH _

/-- C5 witness for the amended bound. -/
theorem update_position_in_closed_box_witness :
    (0 : ℝ) ≤ 100 ∧
      ((Boid.update 100 100
        { position := ⟨1, 10⟩, velocity := ⟨-2, 0⟩, acceleration := ⟨0, 0⟩,
          maxForce := 0.1, maxSpeed := 3, rotation := 0, color := 0 }
        []).position.x ∈ Set.Icc (0 : ℝ) 100 ∧
       (Boid.update 100 100
        { position := ⟨1, 10⟩, velocity := ⟨-2, 0⟩, acceleration := ⟨0, 0⟩,
          maxForce := 0.1, maxSpeed := 3, rotation := 0, color := 0 }
        []).position.y ∈ Set.Icc (0 : ℝ) 100) :=
  ⟨by norm_num,
    update_position_in_closed_box 100 100 (by norm_num) (by norm_num)
      { position := ⟨1, 10⟩, velocity := ⟨-2, 0⟩, acceleration := ⟨0, 0⟩,
        maxForce := 0.1, maxSpeed := 3, rotation := 0, color := 0 } []⟩

/-- C5 counterexample: a boid at x = 1 moving left by 2 is wrapped to
x = 100 exactly, which lies outside the claimed half-open interval
`[0, 100)`. -/
theorem update_position_not_in_half_open :
    (Boid.update 100 100
      { position := ⟨1, 10⟩, velocity := ⟨-2, 0⟩, acceleration := ⟨0, 0⟩,
        maxForce := 0.1, maxSpeed := 3, rotation := 0, color := 0 }
      []).position.x = 100 ∧
    (Boid.update 100 100
      { position := ⟨1, 10⟩, velocity := ⟨-2, 0⟩, acceleration := ⟨0, 0⟩,
        maxForce := 0.1, maxSpeed := 3, rotation := 0, color := 0 }
      []).position.x ∉ Set.Ico (0 : ℝ) 100 := by
  have hx : (Boid.update 100 100
      { position := ⟨1, 10⟩, velocity := ⟨-2, 0⟩, acceleration := ⟨0, 0⟩,
        maxForce := 0.1, maxSpeed := 3, rotation := 0, color := 0 }
      []).position.x = 100 := by
    rw [show Boid.update 100 100
        { position := ⟨1, 10⟩, velocity := ⟨-2, 0⟩, acceleration := ⟨0, 0⟩,
          maxForce := 0.1, maxSpeed := 3, rotation := 0, color := 0 } []
        = Boid.edges 100 100
          { position := (Vector.mk 1 10).add
              (((Vector.mk (-2) 0).add ⟨0, 0⟩).limit 3),
            velocity := ((Vector.mk (-2) 0).add ⟨0, 0⟩).limit 3,
            acceleration := (Vector.mk 0 0).mult 0,
            maxForce := 0.1, maxSpeed := 3,
            rotation := atan2 (((Vector.mk (-2) 0).add ⟨0, 0⟩).limit 3).y
              (((Vector.mk (-2) 0).add ⟨0, 0⟩).limit 3).x, color := 0 }
      by rw [Boid.update, flock_nil]]
    have hlim : ((Vector.mk (-2) 0).add ⟨0, 0⟩).limit 3 = Vector.mk (-2 + 0) (0 + 0) := by
      simp only [Vector.add, Vector.limit]
      norm_num
    rw [hlim]
    simp only [Boid.edges, Vector.add]
    norm_num
  exact ⟨hx, by rw [hx]; simp [Set.mem_Ico]⟩

namespace Game

/-- The circular flow only accumulates a force: position and velocity are
untouched. -/
theorem circularFlow_fields (m : Vector) (b : Boid) :
    (applyCircularFlow m b).position = b.position ∧
      (applyCircularFlow m b).velocity = b.velocity := by
  simp only [applyCircularFlow]
  split
  · exact ⟨rfl, rfl⟩
  · exact ⟨rfl, rfl⟩

/-- The directional flow only accumulates a force: position and velocity
are untouched. -/
theorem directionalFlow_fields (m : Vector) (b : Boid) :
    (applyDirectionalFlow m b).position = b.position ∧
      (applyDirectionalFlow m b).velocity = b.velocity := by
  simp only [applyDirectionalFlow]
  split
  · split
    · exact ⟨rfl, rfl⟩
    · exact ⟨rfl, rfl⟩
  · exact ⟨rfl, rfl⟩

end Game

/-- C6 (amended): within one tick the selected cursor-flow force is
applied after update, so the position and velocity the tick produces are
exactly those of the bare update; the flow force lands in the
acceleration and is consumed only by the next tick. -/
theorem tick_applies_flow_after_update (circular : Bool) (W H : ℝ)
    (m : Vector) (b : Boid) (ns : List Boid) :
    (Game.tickBoid circular W H m b ns).position = (Boid.update W H b ns).position ∧
      (Game.tickBoid circular W H m b ns).velocity = (Boid.update W H b ns).velocity := by
  cases circular with
  | false => exact Game.directionalFlow_fields m _
  | true => exact Game.circularFlow_fields m _

/-- The zero vector has zero magnitude. -/
theorem mag_zero_vec : (Vector.mk 0 0).mag = 0 := by
  simp [Vector.mag]

/-- Angle between any vector and the zero vector is zero. -/
theorem angleBetween_zero_right (v : Vector) :
    v.angleBetween ⟨0, 0⟩ = 0 := by
  simp only [Vector.angleBetween]
  rw [if_pos]
  right
  norm_num

/-- Evaluation of the directional flow on a cursor 100 units to the right
of a motionless boid: the charge branch fires with force
`exp (-2) / 2` along the x axis. -/
theorem directionalFlow_concrete :
    Game.applyDirectionalFlow ⟨150, 50⟩
      { position := ⟨50, 50⟩, velocity := ⟨0, 0⟩, acceleration := ⟨0, 0⟩,
        maxForce := 0.1, maxSpeed := 3, rotation := 0, color := 0 }
      = { position := ⟨50, 50⟩, velocity := ⟨0, 0⟩,
          acceleration := ⟨0 + Real.exp (-2) * 0.5, 0 + 0⟩,
          maxForce := 0.1, maxSpeed := 3, rotation := 0, color := 0 } := by
  have hsqrt : Real.sqrt 10000 = 100 := by
    rw [show (10000 : ℝ) = 100 ^ 2 by norm_num, Real.sqrt_sq]
    norm_num
  have hnorm : (Vector.mk (100 : ℝ) 0).normalize = ⟨1, 0⟩ := by
    simp only [Vector.normalize, Vector.mag, Vector.div]
    norm_num [hsqrt]
  simp only [Game.applyDirectionalFlow]
  norm_num
  rw [angleBetween_zero_right]
  rw [if_neg (show ¬ Real.pi / 2 < |(0 : ℝ)| by
    rw [abs_zero]; exact not_lt.mpr Real.pi_div_two_pos.le)]
  simp only [Vector.copy, hnorm, hsqrt]
  simp only [Boid.applyForce, Vector.mult, Vector.add]
  norm_num

/-- C6 counterexample: for a motionless boid 100 units left of the cursor,
the tick as implemented (update, then flow) leaves the velocity zero,
while the order the spec claims (flow, then update) gives it a positive
x velocity: the two orders produce different boids. -/
theorem tick_differs_from_spec_order :
    Game.tickBoid false 1000 1000 ⟨150, 50⟩
      { position := ⟨50, 50⟩, velocity := ⟨0, 0⟩, acceleration := ⟨0, 0⟩,
        maxForce := 0.1, maxSpeed := 3, rotation := 0, color := 0 } []
    ≠ Game.tickBoidSpecOrder false 1000 1000 ⟨150, 50⟩
      { position := ⟨50, 50⟩, velocity := ⟨0, 0⟩, acceleration := ⟨0, 0⟩,
        maxForce := 0.1, maxSpeed := 3, rotation := 0, color := 0 } [] := by
  intro h
  have hLx : (Game.tickBoid false 1000 1000 ⟨150, 50⟩
      { position := ⟨50, 50⟩, velocity := ⟨0, 0⟩, acceleration := ⟨0, 0⟩,
        maxForce := 0.1, maxSpeed := 3, rotation := 0, color := 0 } []).velocity.x
      = 0 := by
    rw [show Game.tickBoid false 1000 1000 ⟨150, 50⟩
        { position := ⟨50, 50⟩, velocity := ⟨0, 0⟩, acceleration := ⟨0, 0⟩,
          maxForce := 0.1, maxSpeed := 3, rotation := 0, color := 0 } []
        = Game.applyDirectionalFlow ⟨150, 50⟩ (Boid.update 1000 1000
          { position := ⟨50, 50⟩, velocity := ⟨0, 0⟩, acceleration := ⟨0, 0⟩,
            maxForce := 0.1, maxSpeed := 3, rotation := 0, color := 0 } []) from rfl]
    rw [(Game.directionalFlow_fields _ _).2]
    rw [Boid.update_velocity, flock_nil]
    simp only [Vector.add, Vector.limit]
    norm_num
  have hRx : (Game.tickBoidSpecOrder false 1000 1000 ⟨150, 50⟩
      { position := ⟨50, 50⟩, velocity := ⟨0, 0⟩, acceleration := ⟨0, 0⟩,
        maxForce := 0.1, maxSpeed := 3, rotation := 0, color := 0 } []).velocity.x
      = Real.exp (-2) * 0.5 := by
    rw [show Game.tickBoidSpecOrder false 1000 1000 ⟨150, 50⟩
        { position := ⟨50, 50⟩, velocity := ⟨0, 0⟩, acceleration := ⟨0, 0⟩,
          maxForce := 0.1, maxSpeed := 3, rotation := 0, color := 0 } []
        = Boid.update 1000 1000 (Game.applyDirectionalFlow ⟨150, 50⟩
          { position := ⟨50, 50⟩, velocity := ⟨0, 0⟩, acceleration := ⟨0, 0⟩,
            maxForce := 0.1, maxSpeed := 3, rotation := 0, color := 0 }) [] from rfl]
    rw [Boid.update_velocity, flock_nil, directionalFlow_concrete]
    have hexp1 : Real.exp (-2) ≤ 1 := Real.exp_le_one_iff.mpr (by norm_num)
    have hexp0 : 0 < Real.exp (-2) := Real.exp_pos _
    simp only [Vector.add, Vector.limit]
    rw [if_neg (by nlinarith)]
    norm_num
  have h2 : (0 : ℝ) = Real.exp (-2) * 0.5 := by
    rw [← hLx, ← hRx, h]
  have : 0 < Real.exp (-2) * 0.5 := by positivity
  linarith

/-- C1: `attractTo` as implemented pushes the agent away from the point:
with the point 10 units in the +x direction, the accumulated force has a
negative x component (the direction of `position - point`, the same
direction `repelFrom` uses), not toward the point. -/
theorem attractTo_points_away :
    0 < ((⟨10, 0⟩ : Vector).x -
      ({ position := ⟨0, 0⟩, velocity := ⟨1, 0⟩, acceleration := ⟨0, 0⟩,
         maxForce := 0.1, maxSpeed := 3, rotation := 0, color := 0 } : Boid).position.x) ∧
    (Boid.attractTo
      { position := ⟨0, 0⟩, velocity := ⟨1, 0⟩, acceleration := ⟨0, 0⟩,
        maxForce := 0.1, maxSpeed := 3, rotation := 0, color := 0 }
      ⟨10, 0⟩ 0.05).acceleration.x < 0 := by
  have hsqrt : Real.sqrt 100 = 10 := by
    rw [show (100 : ℝ) = 10 ^ 2 by norm_num, Real.sqrt_sq]
    norm_num
  constructor
  · norm_num
  · simp only [Boid.attractTo, Vector.copy, Vector.sub, Vector.limit, Vector.normalize,
      Vector.mag, Vector.div, Vector.mult, Boid.applyForce, Vector.add]
    norm_num [hsqrt]

/-- C2 counterexample: for world extent W = 1000, agents at x = 1 and
x = 999 (toroidal distance 2) trip the perception-radius early return:
`wrappedDistance` yields the sentinel 151, not the wrapped delta 2. -/
theorem wrappedDistance_ignores_far_wrap :
    Boid.wrappedDistance 1000 1000
      { position := ⟨1, 10⟩, velocity := ⟨1, 0⟩, acceleration := ⟨0, 0⟩,
        maxForce := 0.1, maxSpeed := 3, rotation := 0, color := 0 }
      { position := ⟨999, 10⟩, velocity := ⟨1, 0⟩, acceleration := ⟨0, 0⟩,
        maxForce := 0.1, maxSpeed := 3, rotation := 0, color := 0 } = 151 ∧
    (151 : ℝ) ≠ 2 := by
  have habs : |(1 : ℝ) - 999| > 150 := by
    rw [show (1 : ℝ) - 999 = -998 by norm_num, abs_neg,
      abs_of_nonneg (by norm_num : (0 : ℝ) ≤ 998)]
    norm_num
  constructor
  · simp only [Boid.wrappedDistance, PERCEPTION_RADIUS]
    rw [if_pos (Or.inl habs)]
    norm_num
  · norm_num

/-- C2 (amended): wrapping applies only below the perception-radius early
return.  For agents at x = 1 and x = W - 1 on the same row, extents with
4 < W and W - 2 <= 150 give wrapped delta 2, while W - 2 > 150 returns
the out-of-perception sentinel PERCEPTION_RADIUS + 1 instead. -/
theorem wrappedDistance_amended (W H y : ℝ) (b1 b2 : Boid)
    (h1 : b1.position = ⟨1, y⟩) (h2 : b2.position = ⟨W - 1, y⟩) (hH : 0 ≤ H) :
    (4 < W → W - 2 ≤ 150 → Boid.wrappedDistance W H b1 b2 = 2) ∧
    (150 < W - 2 → Boid.wrappedDistance W H b1 b2 = PERCEPTION_RADIUS + 1) := by
  have hdx : |b1.position.x - b2.position.x| = |2 - W| := by
    rw [h1, h2]
    congr 1
    ring
  have hdy : |b1.position.y - b2.position.y| = 0 := by
    rw [h1, h2]
    simp
  constructor
  · intro h4 h150
    have habs : |2 - W| = W - 2 := by
      rw [abs_of_nonpos (by linarith)]
      ring
    simp only [Boid.wrappedDistance, PERCEPTION_RADIUS]
    rw [hdx, hdy, habs]
    rw [if_neg (by
      simp only [not_or, not_lt]
      exact ⟨by linarith, by norm_num⟩)]
    rw [if_pos (by linarith : W - 2 > W / 2), if_neg (by linarith : ¬ (0 : ℝ) > H / 2)]
    rw [show W - (W - 2) = 2 by ring]
    rw [show (2 : ℝ) * 2 + 0 * 0 = 2 ^ 2 by norm_num, Real.sqrt_sq (by norm_num)]
  · intro h150
    have habs : |2 - W| = W - 2 := by
      rw [abs_of_nonpos (by linarith)]
      ring
    simp only [Boid.wrappedDistance, PERCEPTION_RADIUS]
    rw [hdx, habs]
    rw [if_pos (Or.inl (by linarith : W - 2 > 150))]

/-- C2 amended witness: W = 100 within the guard. -/
theorem wrappedDistance_amended_witness :
    (({ position := ⟨1, 7⟩, velocity := ⟨1, 0⟩, acceleration := ⟨0, 0⟩,
        maxForce := 0.1, maxSpeed := 3, rotation := 0, color := 0 } : Boid).position
      = (⟨1, 7⟩ : Vector)) ∧ (0 : ℝ) ≤ 50 ∧
    ((4 < (100 : ℝ) → (100 : ℝ) - 2 ≤ 150 →
      Boid.wrappedDistance 100 50
        { position := ⟨1, 7⟩, velocity := ⟨1, 0⟩, acceleration := ⟨0, 0⟩,
          maxForce := 0.1, maxSpeed := 3, rotation := 0, color := 0 }
        { position := ⟨100 - 1, 7⟩, velocity := ⟨1, 0⟩, acceleration := ⟨0, 0⟩,
          maxForce := 0.1, maxSpeed := 3, rotation := 0, color := 0 } = 2) ∧
     (150 < (100 : ℝ) - 2 →
      Boid.wrappedDistance 100 50
        { position := ⟨1, 7⟩, velocity := ⟨1, 0⟩, acceleration := ⟨0, 0⟩,
          maxForce := 0.1, maxSpeed := 3, rotation := 0, color := 0 }
        { position := ⟨100 - 1, 7⟩, velocity := ⟨1, 0⟩, acceleration := ⟨0, 0⟩,
          maxForce := 0.1, maxSpeed := 3, rotation := 0, color := 0 }
        = PERCEPTION_RADIUS + 1)) :=
  ⟨rfl, by norm_num,
    wrappedDistance_amended 100 50 7 _ _ rfl rfl (by norm_num)⟩

/-- C9: `normalize` of the zero vector is a no-op, and `angleBetween`
returns 0 whenever either operand has zero magnitude: no division by
zero ever occurs. -/
theorem zero_vector_handling :
    Vector.normalize ⟨0, 0⟩ = ⟨0, 0⟩ ∧
      ∀ a b : Vector, a.mag = 0 ∨ b.mag = 0 → a.angleBetween b = 0 := by
  constructor
  · simp only [Vector.normalize]
    rw [if_neg (not_not_intro mag_zero_vec)]
  · intro a b h
    have h1 : Real.sqrt (a.x * a.x + a.y * a.y) = 0 ∨
        Real.sqrt (b.x * b.x + b.y * b.y) = 0 := h
    simp only [Vector.angleBetween]
    rw [if_pos h1]

/-- C9 witness: the zero vector against (3, 4). -/
theorem zero_vector_handling_witness :
    ((Vector.mk (0 : ℝ) 0).mag = 0 ∨ (Vector.mk (3 : ℝ) 4).mag = 0) ∧
      Vector.angleBetween ⟨0, 0⟩ ⟨3, 4⟩ = 0 :=
  ⟨Or.inl mag_zero_vec, zero_vector_handling.2 ⟨0, 0⟩ ⟨3, 4⟩ (Or.inl mag_zero_vec)⟩
